import Mathlib

/-!
Verification development for the request-governance and retrieval pipeline of
the restaurant chat backend (`src/lambda.js`).

The JavaScript source is shallowly embedded: timestamps are `Int` milliseconds
(JS `Date.now()` arithmetic on safe integers is exact), the per-client mutable
maps (`rateState`, `spamState`, `inFlight`, `cache`) are modelled per key as
`Option`-valued state threaded explicitly, thrown governance errors become an
`Option GovFail` result, and the external language-model capability is an
oracle argument (a string, or a list of stream fragments).  JS strings are
modelled as Lean `String`/`List Char` (the corpus and keys are BMP text, where
JS UTF-16 code units coincide with characters).  `String.prototype.trim` is
modelled for the whitespace characters that occur in this domain
(space, tab, carriage return, newline).
-/

/-! ### Constants (src/lambda.js lines 26-39, 652-654) -/

def MAX_MENU_CHUNK : Nat := 15000

def HISTORY_MAX : Nat := 16

def HISTORY_TRIM_LEN : Nat := 500

def USER_TRIM_LEN : Nat := 1000

def CACHE_TTL : Int := 6 * 60 * 60 * 1000

def RL_WINDOW_MS : Int := 60 * 1000

def RL_LIMIT : Nat := 12

def SPAM_WINDOW_MS : Int := 5 * 60 * 1000

def SPAM_LIMIT : Nat := 30

def SPAM_BLOCK_MS : Int := 3 * 60 * 1000

def MIN_INTERVAL_MS : Int := 650

def MAX_EMBED_CHUNK_CHARS : Nat := 1400

def RETRIEVAL_TOP_K_DEFAULT : Nat := 4

def RETRIEVAL_TOP_K_BROAD : Nat := 7

/-- Model of JavaScript `Math.ceil(a / b)` for integers with `b > 0`:
the Lean `Int` division is euclidean, which floors for a positive divisor,
so negating twice yields the ceiling.  (For the magnitudes occurring here,
double-precision division followed by `Math.ceil` agrees with the exact
rational ceiling.) -/
def ceilDiv (a b : Int) : Int := -((-a) / b)

/-- Model of JavaScript `s.slice(0, n)` on strings (code units = characters
for the BMP text of this application). -/
def jsSlice (s : String) (n : Nat) : String := String.mk (s.data.take n)

/-- Whitespace predicate backing the model of `String.prototype.trim`. -/
def isWsChar (c : Char) : Bool := c = ' ' || c = '\t' || c = '\r' || c = '\n'

/-- Model of JavaScript `trim()` at the character-list level: strip
whitespace from both ends. -/
def jsTrim (l : List Char) : List Char :=
  ((l.dropWhile isWsChar).reverse.dropWhile isWsChar).reverse

/-- Model of JavaScript `trim()` on strings. -/
def jsTrimStr (s : String) : String := String.mk (jsTrim s.data)

/-! ### Typed governance failures

The source throws `Error` objects carrying `statusCode` and `retryAfterSec`;
we model them as a sum carrying the retry-after seconds where present. -/

inductive GovFail : Type
  | RATE_LIMIT (retryAfterSec : Int)
  | COOLDOWN (retryAfterSec : Int)
  | TOO_FAST (retryAfterSec : Int)
  | SPAM_WINDOW (retryAfterSec : Int)
  | BUSY
deriving DecidableEq, Repr

/-- The `statusCode` attached to each thrown governance error in the source:
409 for `BUSY` (applyBusyGuardOrThrow), 429 for all the others. -/
def statusOf : GovFail → Nat
  | .BUSY => 409
  | _ => 429

/-! ### RateLimiter (src/lambda.js lines 1156-1176, `applyRateLimitOrThrow`) -/

structure RateState : Type where
  windowStart : Int
  count : Nat
  resetAt : Int
deriving DecidableEq, Repr

/-- Model of `applyRateLimitOrThrow(key)` acting on the `rateState` entry for
one client key: returns the thrown failure (if any) and the state written
back to the map (the source always stores the updated state, even when it
throws). -/
def applyRateLimitOrThrow (now : Int) (st0 : Option RateState) :
    Option GovFail × RateState :=
  let st := st0.getD { windowStart := now, count := 0, resetAt := now + RL_WINDOW_MS }
  let st := if now - st.windowStart > RL_WINDOW_MS then
    { windowStart := now, count := 0, resetAt := now + RL_WINDOW_MS } else st
  let st := { st with count := st.count + 1 }
  if st.count > RL_LIMIT then
    (some (.RATE_LIMIT (max 1 (ceilDiv (st.resetAt - now) 1000))), st)
  else
    (none, st)

/-! ### SpamGuard (src/lambda.js lines 1178-1221, `applySpamGuardOrThrow`) -/

structure SpamState : Type where
  windowStart : Int
  count : Nat
  blockedUntil : Int
  lastAt : Int
deriving DecidableEq, Repr

/-- Model of `applySpamGuardOrThrow(key)` on one client key's `spamState`
entry.  JS truthiness tests `st.blockedUntil && ...` and `st.lastAt && ...`
become inequations with 0.  In the cooldown branch the source neither mutates
the (shared) state object nor calls `set`, so the stored entry is returned
unchanged; every other branch persists the mutated state. -/
def applySpamGuardOrThrow (now : Int) (st0 : Option SpamState) :
    Option GovFail × Option SpamState :=
  let st := st0.getD { windowStart := now, count := 0, blockedUntil := 0, lastAt := 0 }
  if st.blockedUntil ≠ 0 ∧ now < st.blockedUntil then
    (some (.COOLDOWN (max 1 (ceilDiv (st.blockedUntil - now) 1000))), st0)
  else if st.lastAt ≠ 0 ∧ now - st.lastAt < MIN_INTERVAL_MS then
    (some (.TOO_FAST 3), some { st with blockedUntil := now + 3000 })
  else
    let st := if now - st.windowStart > SPAM_WINDOW_MS then
      { st with windowStart := now, count := 0 } else st
    let st := { st with count := st.count + 1, lastAt := now }
    if st.count > SPAM_LIMIT then
      (some (.SPAM_WINDOW (max 1 (ceilDiv SPAM_BLOCK_MS 1000))),
        some { st with blockedUntil := now + SPAM_BLOCK_MS })
    else
      (none, some st)

/-! ### InFlightGuard (src/lambda.js lines 1223-1231) -/

/-- Model of `applyBusyGuardOrThrow(key)`: the per-key `inFlight` membership
is a `Bool`; returns the thrown failure (if any) and the new membership. -/
def applyBusyGuardOrThrow (inFlight : Bool) : Option GovFail × Bool :=
  if inFlight then (some .BUSY, inFlight) else (none, true)

/-- Model of `clearBusy(key)`: `inFlight.delete(key)` — unconditionally
removes the key, whatever the current membership. -/
def clearBusy (_inFlight : Bool) : Bool := false

/-! ### ResponseCache (src/lambda.js lines 1144-1149, 1101-1106) -/

structure CacheEntry : Type where
  ts : Int
  reply : String
deriving DecidableEq, Repr

/-- Model of the effect of `cleanupCache()` on one cache entry: an entry
strictly older than `CACHE_TTL` is deleted. -/
def cleanupCacheEntry (now : Int) (e : Option CacheEntry) : Option CacheEntry :=
  match e with
  | none => none
  | some v => if now - v.ts > CACHE_TTL then none else some v

def VALID_CATEGORIES : List String :=
  ["auto", "full", "starters_soups", "mains", "desserts", "drinks", "info"]

/-- Model of `normalizeCategory(category)` (src/lambda.js lines 891-893,
with `VALID_CATEGORIES` from line 687 — the copy in effect for
`makeCacheKey` at lines 1101-1106): unknown categories fold to "auto". -/
def normalizeCategory (category : String) : String :=
  if category ∈ VALID_CATEGORIES then category else "auto"

structure Turn : Type where
  role : String
  content : String
deriving DecidableEq, Repr

/-- Model of JavaScript `array.slice(-n)`: the trailing `n` elements
(the whole list when it is shorter). -/
def lastN {α : Type} (n : Nat) (l : List α) : List α := l.drop (l.length - n)

/-- The per-turn component of the cache key:
`` `${x?.role || ""}:${String(x?.content || "").slice(0, 140)}` ``. -/
def turnSig (t : Turn) : String := t.role ++ ":" ++ jsSlice t.content 140

/-- Model of `makeCacheKey(message, history, category)`
(src/lambda.js lines 1101-1106). -/
def makeCacheKey (message : String) (history : List Turn) (category : String) : String :=
  let safeCategory := normalizeCategory category
  let h := lastN 4 history
  let hKey := String.intercalate "|" (h.map turnSig)
  safeCategory ++ "::" ++ jsSlice message 600 ++ "::" ++ hKey

/-! ### computeReply (src/lambda.js lines 1238-1267)

The retrieval-and-generation tail of `computeReply` is an external capability
from the point of view of claims C5/C10; it is abstracted as the raw answer
content `gen` the model would return.  The cache map is viewed at the one key
`makeCacheKey` produces for the request. -/

structure ComputeReplyOut : Type where
  reply : String
  cached : Bool
  entry : Option CacheEntry
  genInvoked : Bool
deriving DecidableEq, Repr

/-- Model of `computeReply`: runs `cleanupCache()`, then serves a fresh cache
hit without invoking generation, otherwise invokes generation, trims the
answer and writes it back under the key. -/
def computeReply (now : Int) (entry0 : Option CacheEntry) (gen : String) :
    ComputeReplyOut :=
  let entry1 := cleanupCacheEntry now entry0
  match entry1 with
  | some v =>
    if now - v.ts < CACHE_TTL then
      { reply := v.reply, cached := true, entry := entry1, genInvoked := false }
    else
      { reply := jsTrimStr gen, cached := false,
        entry := some { ts := now, reply := jsTrimStr gen }, genInvoked := true }
  | none =>
      { reply := jsTrimStr gen, cached := false,
        entry := some { ts := now, reply := jsTrimStr gen }, genInvoked := true }

/-! ### handleChatBuffered (src/lambda.js lines 1269-1290)

Governance composition for one client key.  Body parsing and transport are
outside the model; `message` is the parsed message string, and the
`computeReply` call is abstracted as an outcome oracle (it either returns a
reply or throws). -/

structure KeyGovState : Type where
  rate : Option RateState
  spam : Option SpamState
  inFlight : Bool
deriving DecidableEq, Repr

inductive ComputeOutcome : Type
  | ok (reply : String) (cached : Bool)
  | threw
deriving DecidableEq, Repr

inductive ChatResult : Type
  | noMessage
  | ok (reply : String) (cached : Bool)
  | fail (e : GovFail)
  | serverError
deriving DecidableEq, Repr

/-- Model of `handleChatBuffered` for one client key: the `NO_MESSAGE` check,
then rate limiter, spam guard and busy guard in source order (each guard's
state write-back happens even when a later guard throws), then the guarded
computation with `clearBusy` in a `finally` block. -/
def handleChatBuffered (now : Int) (message : String) (st : KeyGovState)
    (compute : ComputeOutcome) : ChatResult × KeyGovState :=
  if message = "" then (.noMessage, st)
  else
    match applyRateLimitOrThrow now st.rate with
    | (some e, r) => (.fail e, { st with rate := some r })
    | (none, r) =>
      match applySpamGuardOrThrow now st.spam with
      | (some e, s) => (.fail e, { st with rate := some r, spam := s })
      | (none, s) =>
        match applyBusyGuardOrThrow st.inFlight with
        | (some e, b) => (.fail e, { rate := some r, spam := s, inFlight := b })
        | (none, b) =>
          match compute with
          | .ok reply c => (.ok reply c, { rate := some r, spam := s, inFlight := clearBusy b })
          | .threw => (.serverError, { rate := some r, spam := s, inFlight := clearBusy b })

/-! ### CorpusIndexer: greedy line packing (src/lambda.js lines 952-973)

`chunkSection` splits the section text on `/\r?\n/` and greedily packs lines
into chunks of at most `MAX_EMBED_CHUNK_CHARS` characters, flushing the
trimmed buffer when the next line would overflow.  Texts are `List Char`
here so the packing arithmetic is over plain lists. -/

/-- Model of `String.prototype.split(/\r?\n/)`: a `\r\n` pair or a lone `\n`
separates lines; a lone `\r` stays inside its line. -/
def splitLinesAux : List Char → List Char → List (List Char)
  | [], acc => [acc.reverse]
  | '\r' :: '\n' :: rest, acc => acc.reverse :: splitLinesAux rest []
  | '\n' :: rest, acc => acc.reverse :: splitLinesAux rest []
  | c :: rest, acc => splitLinesAux rest (c :: acc)

def splitLines (text : List Char) : List (List Char) := splitLinesAux text []

/-- The greedy packing loop of `chunkSection`: `buf` is the accumulated
buffer, the result is the list of flushed chunk texts.  A flush pushes
`buf.trim()`; the final buffer is flushed only when its trim is nonempty. -/
def chunkSectionGo (buf : List Char) : List (List Char) → List (List Char)
  | [] => if jsTrim buf = [] then [] else [jsTrim buf]
  | line :: rest =>
    let nxt := if buf = [] then line else buf ++ '\n' :: line
    if nxt.length > MAX_EMBED_CHUNK_CHARS ∧ buf ≠ [] then
      jsTrim buf :: chunkSectionGo line rest
    else
      chunkSectionGo nxt rest

structure MenuChunk : Type where
  id : String
  key : String
  text : List Char
deriving DecidableEq, Repr

/-- Model of `chunkSection(key, text)`: pack the lines, then attach the
stable ids `` `${key}:${i + 1}` ``. -/
def chunkSection (key : String) (text : List Char) : List MenuChunk :=
  let chunks := chunkSectionGo [] (splitLines text)
  chunks.enum.map fun p => { id := key ++ ":" ++ toString (p.1 + 1), key := key, text := p.2 }

/-- Join texts with the line separator, as in concatenating a section's
chunks back together. -/
def joinNL : List (List Char) → List Char
  | [] => []
  | [l] => l
  | l :: l2 :: rest => l ++ '\n' :: joinNL (l2 :: rest)

/-! ### Retriever: cosine similarity (src/lambda.js lines 986-996)

JS numbers become real numbers (the theorems instantiate the scalar type at
`ℝ` with `Real.sqrt`; the scalar type and square root stay parameters so the
definition itself remains executable).  The source loops `i` over `a.length`
reading `b[i]`; the two vectors always come from the same embedding model,
so the model assumes (and the theorems hypothesise) equal lengths, under
which the `zipWith`/`map` sums below coincide with the source loop. -/

def dotList {α : Type} [Semiring α] (a b : List α) : α :=
  (List.zipWith (fun x y => x * y) a b).sum

def normSqList {α : Type} [Semiring α] (a : List α) : α :=
  (a.map (fun x => x * x)).sum

/-- Model of `cosineSimilarity(a, b)`: `dot / (Math.sqrt(normA) * Math.sqrt(normB) || 1)`;
the JS `|| 1` replaces a zero denominator by 1. -/
def cosineSimilarity {α : Type} [Field α] [DecidableEq α] (sqrt : α → α)
    (a b : List α) : α :=
  let d := sqrt (normSqList a) * sqrt (normSqList b)
  dotList a b / (if d = 0 then 1 else d)

/-! ### Retriever and ContextAssembler (src/lambda.js lines 1108-1142)

`buildMenuContextForQuery` scores every chunk against the query embedding,
sorts descending (JS stable sort with comparator `b.score - a.score`,
modelled as a stable merge sort over a linearly ordered score type), takes
the intent-dependent top K, prepends at most one intro and one footer chunk,
deduplicates by id keeping first insertions, renders labelled blocks and
truncates the whole context to `MAX_MENU_CHUNK` characters. -/

structure Chunk : Type where
  id : String
  key : String
  text : String
deriving DecidableEq, Repr

/-- Top-K width selected from the detected intent
(`RETRIEVAL_TOP_K_BROAD` for "cheapest"/"comparison"). -/
def topKOf (intentKey : String) : Nat :=
  if intentKey = "cheapest" || intentKey = "comparison" then
    RETRIEVAL_TOP_K_BROAD
  else
    RETRIEVAL_TOP_K_DEFAULT

/-- The scored index list `embeddings.map((vec, i) => ({idx: i, score: ...}))`,
parameterised by the already-computed scores. -/
def scoredOf {α : Type} (scores : List α) : List (Nat × α) := scores.enum

/-- Model of `scored.sort((a, b) => b.score - a.score)`: stable sort,
descending by score. -/
def sortScored {α : Type} [LinearOrder α] (scored : List (Nat × α)) : List (Nat × α) :=
  scored.mergeSort fun x y => decide (y.2 ≤ x.2)

/-- Model of `scored.slice(0, topK).map(s => chunks[s.idx])`. -/
def selectedOf {α : Type} [LinearOrder α] (chunks : List Chunk) (scores : List α)
    (k : Nat) : List Chunk :=
  ((sortScored (scoredOf scores)).take k).map fun s =>
    (chunks.get? s.1).getD { id := "", key := "", text := "" }

def introOf (chunks : List Chunk) : List Chunk :=
  (chunks.filter fun c => c.key = "intro").take 1

def footerOf (chunks : List Chunk) : List Chunk :=
  (chunks.filter fun c => c.key = "footer").take 1

/-- Model of the `unique` insertion-ordered map keyed by chunk id:
walk the list, keeping each chunk whose id was not seen before. -/
def dedupeByIdGo (seen : List String) : List Chunk → List Chunk
  | [] => []
  | c :: rest =>
    if c.id ∈ seen then dedupeByIdGo seen rest
    else c :: dedupeByIdGo (c.id :: seen) rest

def dedupeById (l : List Chunk) : List Chunk := dedupeByIdGo [] l

/-- Model of `toUpperCase()` as a character map (section keys are ASCII). -/
def jsToUpper (s : String) : String := String.mk (s.data.map Char.toUpper)

/-- One labelled context block:
`` `### ${chunk.key.toUpperCase()} (${chunk.id})\n${chunk.text}` ``. -/
def blockOf (c : Chunk) : String :=
  "### " ++ jsToUpper c.key ++ " (" ++ c.id ++ ")\n" ++ c.text

/-- The deduplicated selection, in insertion order intro, footer, ranked. -/
def uniqueOf {α : Type} [LinearOrder α] (chunks : List Chunk) (scores : List α)
    (intentKey : String) : List Chunk :=
  dedupeById (introOf chunks ++ footerOf chunks ++
    selectedOf chunks scores (topKOf intentKey))

/-- Model of the context-assembly tail of `buildMenuContextForQuery`:
labelled blocks joined by blank lines, truncated to `MAX_MENU_CHUNK`. -/
def buildMenuContext {α : Type} [LinearOrder α] (chunks : List Chunk)
    (scores : List α) (intentKey : String) : String :=
  jsSlice (String.intercalate "\n\n" ((uniqueOf chunks scores intentKey).map blockOf))
    MAX_MENU_CHUNK

/-! ### AnswerStreamer (src/lambda.js lines 1292-1378, `handleChatStream`)

The SSE writes are modelled as discrete wire events; generation is an oracle
yielding the ordered fragments (the non-empty deltas are forwarded, empty
deltas are skipped by `if (!delta) continue`), either to completion or up to
a mid-stream failure. -/

inductive WireEvent : Type
  | delta (text : String) (cached : Bool)
  | errorEvent
  | done
deriving DecidableEq, Repr

inductive GenOutcome : Type
  | success (frags : List String)
  | failure (frags : List String)
deriving DecidableEq, Repr

/-- The generation part of `handleChatStream`: forward each non-empty
fragment, then either `[DONE]` plus a cache write of the trimmed
concatenation (success) or the error marker followed by `[DONE]` with no
cache write (mid-stream failure). -/
def streamGenEvents (now : Int) (entry1 : Option CacheEntry) :
    GenOutcome → List WireEvent × Option CacheEntry
  | .success frags =>
    ((frags.filter fun d => d ≠ "").map (fun d => .delta d false) ++ [.done],
      some { ts := now, reply := jsTrimStr (String.join frags) })
  | .failure frags =>
    ((frags.filter fun d => d ≠ "").map (fun d => .delta d false) ++ [.errorEvent, .done],
      entry1)

/-- Model of the admitted (post-governance) body of `handleChatStream` for
one cache key: `cleanupCache()`, then a fresh cache hit streams the full
cached answer as a single fragment followed by the terminal event, otherwise
generation is streamed. -/
def handleChatStreamCore (now : Int) (entry0 : Option CacheEntry)
    (gen : GenOutcome) : List WireEvent × Option CacheEntry :=
  let entry1 := cleanupCacheEntry now entry0
  match entry1 with
  | some v =>
    if now - v.ts < CACHE_TTL then
      ([.delta v.reply true, .done], entry1)
    else
      streamGenEvents now entry1 gen
  | none => streamGenEvents now entry1 gen

/-- The fragments carried by the delta events of a wire-event list. -/
def emittedFrags (evs : List WireEvent) : List String :=
  evs.filterMap fun e =>
    match e with
    | .delta s _ => some s
    | _ => none

/-! ### Helper lemmas -/

theorem ceilDiv_le_ceilDiv {a b c : Int} (hc : 0 < c) (h : a ≤ b) :
    ceilDiv a c ≤ ceilDiv b c := by
  unfold ceilDiv
  have : (-b) / c ≤ (-a) / c := Int.ediv_le_ediv hc (by omega)
  omega

/-! ### Claim C2: rate limiter window, increment and retry-after -/

/-- Claim C2: the rate limiter resets its window when the elapsed time since
`windowStart` exceeds the window length (the reset call counts as 1); on
every non-reset call it increments the stored count (including the failing
call) while leaving `windowStart`/`resetAt` intact; and on the call whose
count exceeds `RL_LIMIT` it fails with `RATE_LIMIT` carrying status 429 and
`retryAfterSeconds = max 1 (ceil((resetAt - now) / 1000))`, which is at
least 1. -/
theorem rate_limiter_spec :
    (∀ (now : Int) (st : RateState), now - st.windowStart > RL_WINDOW_MS →
      applyRateLimitOrThrow now (some st) =
        (none, { windowStart := now, count := 1, resetAt := now + RL_WINDOW_MS })) ∧
    (∀ (now : Int) (st : RateState), ¬ now - st.windowStart > RL_WINDOW_MS →
      (applyRateLimitOrThrow now (some st)).2 =
        { windowStart := st.windowStart, count := st.count + 1, resetAt := st.resetAt }) ∧
    (∀ (now : Int) (st : RateState), ¬ now - st.windowStart > RL_WINDOW_MS →
      st.count + 1 > RL_LIMIT →
      (applyRateLimitOrThrow now (some st)).1 =
        some (.RATE_LIMIT (max 1 (ceilDiv (st.resetAt - now) 1000))) ∧
      (1 : Int) ≤ max 1 (ceilDiv (st.resetAt - now) 1000) ∧
      statusOf (.RATE_LIMIT (max 1 (ceilDiv (st.resetAt - now) 1000))) = 429) ∧
    (∀ (now : Int) (st : RateState), ¬ now - st.windowStart > RL_WINDOW_MS →
      st.count + 1 ≤ RL_LIMIT →
      (applyRateLimitOrThrow now (some st)).1 = none) := by
  refine ⟨?_, ?_, ?_, ?_⟩
  · intro now st h
    simp only [applyRateLimitOrThrow, Option.getD_some, if_pos h]
    norm_num [RL_LIMIT]
  · intro now st h
    simp [applyRateLimitOrThrow, if_neg h]
    split <;> rfl
  · intro now st h hcnt
    refine ⟨?_, le_max_left _ _, rfl⟩
    simp [applyRateLimitOrThrow, if_neg h, Nat.lt_iff_add_one_le.mpr hcnt, hcnt]
  · intro now st h hcnt
    simp only [applyRateLimitOrThrow, Option.getD_some, if_neg h]
    rw [if_neg (by omega)]

/-- Witness for `rate_limiter_spec` at concrete states: a reset call, a
plain increment, the 13th in-window call failing with retry-after 59s, and
an admitted in-window call. -/
theorem rate_limiter_spec_witness :
    applyRateLimitOrThrow 200000 (some { windowStart := 0, count := 7, resetAt := 60000 }) =
      (none, { windowStart := 200000, count := 1, resetAt := 260000 }) ∧
    (applyRateLimitOrThrow 1000 (some { windowStart := 0, count := 5, resetAt := 60000 })).2 =
      { windowStart := 0, count := 6, resetAt := 60000 } ∧
    (applyRateLimitOrThrow 1000 (some { windowStart := 0, count := 12, resetAt := 60000 })).1 =
      some (.RATE_LIMIT 59) ∧
    (applyRateLimitOrThrow 1000 (some { windowStart := 0, count := 5, resetAt := 60000 })).1 = none := by
  refine ⟨rate_limiter_spec.1 200000 ⟨0, 7, 60000⟩ (by decide),
    rate_limiter_spec.2.1 1000 ⟨0, 5, 60000⟩ (by decide),
    ?_,
    rate_limiter_spec.2.2.2 1000 ⟨0, 5, 60000⟩ (by decide) (by decide)⟩
  have h := (rate_limiter_spec.2.2.1 1000 ⟨0, 12, 60000⟩ (by decide) (by decide)).1
  rw [h]
  decide

/-! ### SpamGuard branch lemmas (shared by the cooldown-related claims) -/

theorem spamGuard_cooldown (now : Int) (st : SpamState) (h1 : st.blockedUntil ≠ 0)
    (h2 : now < st.blockedUntil) :
    applySpamGuardOrThrow now (some st) =
      (some (.COOLDOWN (max 1 (ceilDiv (st.blockedUntil - now) 1000))), some st) := by
  simp only [applySpamGuardOrThrow, Option.getD_some]
  rw [if_pos ⟨h1, h2⟩]

theorem spamGuard_not_blocked (now : Int) (st : SpamState)
    (h1 : st.blockedUntil = 0 ∨ st.blockedUntil ≤ now) :
    ¬ (st.blockedUntil ≠ 0 ∧ now < st.blockedUntil) := by
  rcases h1 with h | h
  · simp [h]
  · exact fun hc => absurd hc.2 (not_lt.mpr h)

theorem spamGuard_toofast (now : Int) (st : SpamState)
    (h1 : st.blockedUntil = 0 ∨ st.blockedUntil ≤ now)
    (h2 : st.lastAt ≠ 0) (h3 : now - st.lastAt < MIN_INTERVAL_MS) :
    applySpamGuardOrThrow now (some st) =
      (some (.TOO_FAST 3), some { st with blockedUntil := now + 3000 }) := by
  simp only [applySpamGuardOrThrow, Option.getD_some]
  rw [if_neg (spamGuard_not_blocked now st h1), if_pos ⟨h2, h3⟩]

theorem spamGuard_spam_window (now : Int) (st : SpamState)
    (h1 : st.blockedUntil = 0 ∨ st.blockedUntil ≤ now)
    (h2 : st.lastAt = 0 ∨ MIN_INTERVAL_MS ≤ now - st.lastAt)
    (h3 : now - st.windowStart ≤ SPAM_WINDOW_MS)
    (h4 : SPAM_LIMIT < st.count + 1) :
    applySpamGuardOrThrow now (some st) =
      (some (.SPAM_WINDOW (max 1 (ceilDiv SPAM_BLOCK_MS 1000))),
        some { windowStart := st.windowStart, count := st.count + 1,
               blockedUntil := now + SPAM_BLOCK_MS, lastAt := now }) := by
  have hB : ¬ (st.lastAt ≠ 0 ∧ now - st.lastAt < MIN_INTERVAL_MS) := by
    rcases h2 with h | h
    · simp [h]
    · exact fun hc => absurd hc.2 (not_lt.mpr h)
  simp only [applySpamGuardOrThrow, Option.getD_some]
  rw [if_neg (spamGuard_not_blocked now st h1), if_neg hB,
    if_neg (not_lt.mpr h3), if_pos h4]

/-! ### Claim C3: spam-window block and cooldown -/

/-- Claim C3: once the spam-window cap is exceeded (no active cooldown, no
min-interval violation, window not expired, incremented count above
`SPAM_LIMIT`), the guard sets `blockedUntil := now + SPAM_BLOCK_MS` and fails
`SPAM_WINDOW` with retry-after 180 s (= the block duration in seconds);
while `blockedUntil` lies in the future every call fails `COOLDOWN` with the
seconds remaining and returns the stored state untouched (in particular the
window counter is not incremented), including each subsequent call on the
just-blocked state. -/
theorem spam_window_block_spec :
    (∀ (now : Int) (st : SpamState), st.blockedUntil ≠ 0 → now < st.blockedUntil →
      applySpamGuardOrThrow now (some st) =
        (some (.COOLDOWN (max 1 (ceilDiv (st.blockedUntil - now) 1000))), some st)) ∧
    (∀ (now : Int) (st : SpamState),
      (st.blockedUntil = 0 ∨ st.blockedUntil ≤ now) →
      (st.lastAt = 0 ∨ MIN_INTERVAL_MS ≤ now - st.lastAt) →
      now - st.windowStart ≤ SPAM_WINDOW_MS →
      SPAM_LIMIT < st.count + 1 →
      applySpamGuardOrThrow now (some st) =
        (some (.SPAM_WINDOW (max 1 (ceilDiv SPAM_BLOCK_MS 1000))),
          some { windowStart := st.windowStart, count := st.count + 1,
                 blockedUntil := now + SPAM_BLOCK_MS, lastAt := now })) ∧
    max 1 (ceilDiv SPAM_BLOCK_MS 1000) = 180 ∧
    (∀ (now t : Int) (st : SpamState), 0 ≤ now →
      (st.blockedUntil = 0 ∨ st.blockedUntil ≤ now) →
      (st.lastAt = 0 ∨ MIN_INTERVAL_MS ≤ now - st.lastAt) →
      now - st.windowStart ≤ SPAM_WINDOW_MS →
      SPAM_LIMIT < st.count + 1 →
      t < now + SPAM_BLOCK_MS →
      applySpamGuardOrThrow t ((applySpamGuardOrThrow now (some st)).2) =
        (some (.COOLDOWN (max 1 (ceilDiv (now + SPAM_BLOCK_MS - t) 1000))),
          (applySpamGuardOrThrow now (some st)).2)) := by
  have h180 : SPAM_BLOCK_MS = 180000 := by decide
  refine ⟨spamGuard_cooldown, spamGuard_spam_window, by decide, ?_⟩
  intro now t st h0 h1 h2 h3 h4 ht
  rw [spamGuard_spam_window now st h1 h2 h3 h4]
  exact spamGuard_cooldown t _ (show now + SPAM_BLOCK_MS ≠ 0 by omega)
    (show t < now + SPAM_BLOCK_MS from ht)

/-- Witness for `spam_window_block_spec`: the 31st in-window call at
`now = 1000000` is blocked for 180 s, and a call 90 s later fails
`COOLDOWN` with 90 s remaining, leaving the state untouched. -/
theorem spam_window_block_spec_witness :
    applySpamGuardOrThrow 1000000
        (some { windowStart := 900000, count := 30, blockedUntil := 0, lastAt := 999000 }) =
      (some (.SPAM_WINDOW 180),
        some { windowStart := 900000, count := 31, blockedUntil := 1180000, lastAt := 1000000 }) ∧
    applySpamGuardOrThrow 1090000
        (some { windowStart := 900000, count := 31, blockedUntil := 1180000, lastAt := 1000000 }) =
      (some (.COOLDOWN 90),
        some { windowStart := 900000, count := 31, blockedUntil := 1180000, lastAt := 1000000 }) := by
  constructor
  · exact spam_window_block_spec.2.1 1000000 ⟨900000, 30, 0, 999000⟩
      (by decide) (by decide) (by decide) (by decide)
  · exact spam_window_block_spec.1 1090000 ⟨900000, 31, 1180000, 1000000⟩
      (by decide) (by decide)

/-! ### Claim C4: minimum-interval TOO_FAST and decreasing cooldown -/

/-- Claim C4: a submission arriving less than `MIN_INTERVAL_MS` after the
previous recorded request (`lastAt`) fails `TOO_FAST` with retry-after 3
seconds and sets `blockedUntil := now + 3000`; any further submission
before that cooldown expires fails `COOLDOWN` with retry-after
`max 1 (ceil((blockedUntil - t) / 1000))`, which is antitone in `t` (the
retry-after decreases, weakly, as time passes). -/
theorem min_interval_too_fast_spec :
    (∀ (now : Int) (st : SpamState),
      (st.blockedUntil = 0 ∨ st.blockedUntil ≤ now) →
      st.lastAt ≠ 0 → now - st.lastAt < MIN_INTERVAL_MS →
      applySpamGuardOrThrow now (some st) =
        (some (.TOO_FAST 3), some { st with blockedUntil := now + 3000 })) ∧
    (∀ (now t : Int) (st : SpamState), 0 ≤ now →
      t < now + 3000 →
      applySpamGuardOrThrow t (some { st with blockedUntil := now + 3000 }) =
        (some (.COOLDOWN (max 1 (ceilDiv (now + 3000 - t) 1000))),
          some { st with blockedUntil := now + 3000 })) ∧
    (∀ (blockedUntil t1 t2 : Int), t1 ≤ t2 →
      max 1 (ceilDiv (blockedUntil - t2) 1000) ≤ max 1 (ceilDiv (blockedUntil - t1) 1000)) := by
  refine ⟨spamGuard_toofast, ?_, ?_⟩
  · intro now t st h0 ht
    exact spamGuard_cooldown t _ (show now + 3000 ≠ 0 by omega)
      (show t < now + 3000 from ht)
  · intro blockedUntil t1 t2 h
    exact max_le_max le_rfl (ceilDiv_le_ceilDiv (by omega) (by omega))

/-- Witness for `min_interval_too_fast_spec`: a call 100 ms after the
previous one at `now = 10000` fails `TOO_FAST` and blocks until 13000; a
call at 11000 fails `COOLDOWN` with 2 s remaining; and the retry-after at
12100 is at most the retry-after at 11000. -/
theorem min_interval_too_fast_spec_witness :
    applySpamGuardOrThrow 10000
        (some { windowStart := 9000, count := 3, blockedUntil := 0, lastAt := 9900 }) =
      (some (.TOO_FAST 3),
        some { windowStart := 9000, count := 3, blockedUntil := 13000, lastAt := 9900 }) ∧
    applySpamGuardOrThrow 11000
        (some { windowStart := 9000, count := 3, blockedUntil := 13000, lastAt := 9900 }) =
      (some (.COOLDOWN 2),
        some { windowStart := 9000, count := 3, blockedUntil := 13000, lastAt := 9900 }) ∧
    max 1 (ceilDiv (13000 - 12100) 1000) ≤ max 1 (ceilDiv (13000 - 11000) 1000) := by
  refine ⟨?_, ?_, min_interval_too_fast_spec.2.2 13000 11000 12100 (by decide)⟩
  · exact min_interval_too_fast_spec.1 10000 ⟨9000, 3, 0, 9900⟩
      (by decide) (by decide) (by decide)
  · exact min_interval_too_fast_spec.2.1 10000 11000 ⟨9000, 3, 0, 9900⟩
      (by decide) (by decide)

/-! ### Claim C5: cache TTL, hit, lazy purge -/

/-- Claim C5: when the stored entry under the request's cache key is younger
than `CACHE_TTL`, `computeReply` returns the stored answer with
`cached = true` and does not invoke the generation capability; an entry
strictly older than `CACHE_TTL` is removed by the `cleanupCache` pass run at
the start of the computation, and the request regenerates (fresh answer,
`cached = false`, new entry stamped `now`). -/
theorem cache_ttl_spec :
    (∀ (now : Int) (v : CacheEntry) (gen : String), now - v.ts < CACHE_TTL →
      computeReply now (some v) gen =
        { reply := v.reply, cached := true, entry := some v, genInvoked := false }) ∧
    (∀ (now : Int) (v : CacheEntry), now - v.ts > CACHE_TTL →
      cleanupCacheEntry now (some v) = none) ∧
    (∀ (now : Int) (v : CacheEntry) (gen : String), now - v.ts > CACHE_TTL →
      computeReply now (some v) gen =
        { reply := jsTrimStr gen, cached := false,
          entry := some { ts := now, reply := jsTrimStr gen }, genInvoked := true }) := by
  have cleanup_stale : ∀ (now : Int) (v : CacheEntry), now - v.ts > CACHE_TTL →
      cleanupCacheEntry now (some v) = none := by
    intro now v h
    simp only [cleanupCacheEntry]
    rw [if_pos h]
  refine ⟨?_, cleanup_stale, ?_⟩
  · intro now v gen h
    have hkeep : cleanupCacheEntry now (some v) = some v := by
      simp only [cleanupCacheEntry]
      rw [if_neg (by omega)]
    simp only [computeReply, hkeep]
    rw [if_pos h]
  · intro now v gen h
    simp only [computeReply, cleanup_stale now v h]

/-- Witness for `cache_ttl_spec` with `CACHE_TTL = 21600000` ms: a 100 ms
old entry is served from cache without regenerating; an entry older than
the TTL is purged and the request regenerates. -/
theorem cache_ttl_spec_witness :
    computeReply 100 (some { ts := 0, reply := "r" }) "gen" =
      { reply := "r", cached := true, entry := some { ts := 0, reply := "r" },
        genInvoked := false } ∧
    cleanupCacheEntry 30000000 (some { ts := 0, reply := "r" }) = none ∧
    computeReply 30000000 (some { ts := 0, reply := "r" }) " gen " =
      { reply := "gen", cached := false,
        entry := some { ts := 30000000, reply := "gen" }, genInvoked := true } := by
  refine ⟨cache_ttl_spec.1 100 ⟨0, "r"⟩ "gen" (by decide),
    cache_ttl_spec.2.1 30000000 ⟨0, "r"⟩ (by decide), ?_⟩
  have h := cache_ttl_spec.2.2 30000000 ⟨0, "r"⟩ " gen " (by decide)
  rw [h]
  decide

/-! ### Claim C10: cache-key determination by the truncation bounds -/

/-- Claim C10: two submit requests with the same normalized category whose
messages agree on their first 600 characters and whose last four history
turns agree pairwise on role and on the first 140 characters of content get
the same cache key; hence, within `CACHE_TTL`, the second request is served
the first request's cached (trimmed) answer without invoking generation
again. -/
theorem cache_key_truncation_spec :
    ∀ (m1 m2 : String) (h1 h2 : List Turn) (c1 c2 : String) (t1 t2 : Int)
      (g1 g2 : String),
      normalizeCategory c1 = normalizeCategory c2 →
      jsSlice m1 600 = jsSlice m2 600 →
      (lastN 4 h1).map (fun t => (t.role, jsSlice t.content 140)) =
        (lastN 4 h2).map (fun t => (t.role, jsSlice t.content 140)) →
      makeCacheKey m1 h1 c1 = makeCacheKey m2 h2 c2 ∧
      (t2 - t1 < CACHE_TTL →
        computeReply t2 (computeReply t1 none g1).entry g2 =
          { reply := jsTrimStr g1, cached := true,
            entry := some { ts := t1, reply := jsTrimStr g1 }, genInvoked := false }) := by
  intro m1 m2 h1 h2 c1 c2 t1 t2 g1 g2 hc hm hh
  constructor
  · have hsig : (lastN 4 h1).map turnSig = (lastN 4 h2).map turnSig := by
      have proj : ∀ (l : List Turn),
          l.map turnSig =
            (l.map (fun t => (t.role, jsSlice t.content 140))).map
              (fun p => p.1 ++ ":" ++ p.2) := by
        intro l
        rw [List.map_map]
        rfl
      rw [proj, proj, hh]
    simp only [makeCacheKey, hc, hm, hsig]
  · intro httl
    have hfirst : (computeReply t1 none g1).entry =
        some { ts := t1, reply := jsTrimStr g1 } := by
      simp only [computeReply, cleanupCacheEntry]
    rw [hfirst]
    have h := cache_ttl_spec.1 t2 { ts := t1, reply := jsTrimStr g1 } g2
      (by simpa using httl)
    simpa using h

/-- Witness for `cache_key_truncation_spec`: two concrete requests equal on
all truncation bounds (identical short message and history here) produce the
same key, and the second is served the first's cached answer. -/
theorem cache_key_truncation_spec_witness :
    makeCacheKey "what is in the meze" [{ role := "user", content := "hi" }] "drinks" =
      makeCacheKey "what is in the meze" [{ role := "user", content := "hi" }] "drinks" ∧
    computeReply 5000
        (computeReply 1000 none " Hello there ").entry "other" =
      { reply := "Hello there", cached := true,
        entry := some { ts := 1000, reply := "Hello there" }, genInvoked := false } := by
  have h := cache_key_truncation_spec "what is in the meze" "what is in the meze"
    [{ role := "user", content := "hi" }] [{ role := "user", content := "hi" }]
    "drinks" "drinks" 1000 5000 " Hello there " "other" rfl rfl rfl
  refine ⟨h.1, ?_⟩
  have h2 := h.2 (by decide)
  rw [h2]
  decide

/-! ### Claim C1: single-flight guard -/

/-- Claim C1: `applyBusyGuardOrThrow` on a key already in flight fails
`BUSY` (status 409) without changing the in-flight membership; `clearBusy`
is idempotent; in `handleChatBuffered` the key is added to the in-flight
set only after the rate and spam checks have passed (a failure of either
leaves the membership untouched), a request admitted past both checks on a
busy key fails `BUSY`, and an admitted request on a free key acquires the
guard and releases it exactly once whether the computation succeeds or
throws (the membership is `false` again afterwards). -/
theorem busy_guard_single_flight :
    (applyBusyGuardOrThrow true = (some .BUSY, true) ∧ statusOf .BUSY = 409) ∧
    (∀ b : Bool, clearBusy (clearBusy b) = clearBusy b) ∧
    (∀ (now : Int) (msg : String) (st : KeyGovState) (compute : ComputeOutcome)
      (e : GovFail), msg ≠ "" →
      (applyRateLimitOrThrow now st.rate).1 = some e →
      (handleChatBuffered now msg st compute).1 = .fail e ∧
      (handleChatBuffered now msg st compute).2.inFlight = st.inFlight) ∧
    (∀ (now : Int) (msg : String) (st : KeyGovState) (compute : ComputeOutcome)
      (e : GovFail), msg ≠ "" →
      (applyRateLimitOrThrow now st.rate).1 = none →
      (applySpamGuardOrThrow now st.spam).1 = some e →
      (handleChatBuffered now msg st compute).1 = .fail e ∧
      (handleChatBuffered now msg st compute).2.inFlight = st.inFlight) ∧
    (∀ (now : Int) (msg : String) (st : KeyGovState) (compute : ComputeOutcome),
      msg ≠ "" →
      (applyRateLimitOrThrow now st.rate).1 = none →
      (applySpamGuardOrThrow now st.spam).1 = none →
      st.inFlight = true →
      (handleChatBuffered now msg st compute).1 = .fail .BUSY ∧
      (handleChatBuffered now msg st compute).2.inFlight = true) ∧
    (∀ (now : Int) (msg : String) (st : KeyGovState) (compute : ComputeOutcome),
      msg ≠ "" →
      (applyRateLimitOrThrow now st.rate).1 = none →
      (applySpamGuardOrThrow now st.spam).1 = none →
      st.inFlight = false →
      (applyBusyGuardOrThrow st.inFlight).2 = true ∧
      (handleChatBuffered now msg st compute).2.inFlight = false) := by
  refine ⟨⟨rfl, rfl⟩, fun b => rfl, ?_, ?_, ?_, ?_⟩
  · intro now msg st compute e hm hr
    rcases hR : applyRateLimitOrThrow now st.rate with ⟨o, r⟩
    rw [hR] at hr
    simp only [] at hr
    subst hr
    simp [handleChatBuffered, hm, hR]
  · intro now msg st compute e hm hr hs
    rcases hR : applyRateLimitOrThrow now st.rate with ⟨o, r⟩
    rw [hR] at hr
    simp only [] at hr
    subst hr
    rcases hS : applySpamGuardOrThrow now st.spam with ⟨o2, s⟩
    rw [hS] at hs
    simp only [] at hs
    subst hs
    simp [handleChatBuffered, hm, hR, hS]
  · intro now msg st compute hm hr hs hb
    rcases hR : applyRateLimitOrThrow now st.rate with ⟨o, r⟩
    rw [hR] at hr
    simp only [] at hr
    subst hr
    rcases hS : applySpamGuardOrThrow now st.spam with ⟨o2, s⟩
    rw [hS] at hs
    simp only [] at hs
    subst hs
    simp [handleChatBuffered, hm, hR, hS, applyBusyGuardOrThrow, hb]
  · intro now msg st compute hm hr hs hb
    rcases hR : applyRateLimitOrThrow now st.rate with ⟨o, r⟩
    rw [hR] at hr
    simp only [] at hr
    subst hr
    rcases hS : applySpamGuardOrThrow now st.spam with ⟨o2, s⟩
    rw [hS] at hs
    simp only [] at hs
    subst hs
    cases compute <;>
      simp [handleChatBuffered, hm, hR, hS, applyBusyGuardOrThrow, hb, clearBusy]

/-- Witness for `busy_guard_single_flight` at concrete states: a rate-limit
failure and a spam failure leave the in-flight membership untouched, an
admitted request on a busy key fails `BUSY`, and an admitted request on a
free key releases the guard even when the computation throws. -/
theorem busy_guard_single_flight_witness :
    (handleChatBuffered 1000 "q"
        { rate := some { windowStart := 0, count := 12, resetAt := 60000 },
          spam := none, inFlight := true } .threw).1 = .fail (.RATE_LIMIT 59) ∧
    (handleChatBuffered 1000 "q"
        { rate := some { windowStart := 0, count := 12, resetAt := 60000 },
          spam := none, inFlight := true } .threw).2.inFlight = true ∧
    (handleChatBuffered 1000 "q"
        { rate := none,
          spam := some { windowStart := 0, count := 3, blockedUntil := 5000, lastAt := 100 },
          inFlight := false } .threw).2.inFlight = false ∧
    (handleChatBuffered 1000 "q"
        { rate := none, spam := none, inFlight := true } (.ok "hi" false)).1 =
      .fail .BUSY ∧
    (handleChatBuffered 1000 "q"
        { rate := none, spam := none, inFlight := false } .threw).2.inFlight = false := by
  refine ⟨?_, ?_, ?_, ?_, ?_⟩
  · exact (busy_guard_single_flight.2.2.1 1000 "q" _ .threw (.RATE_LIMIT 59)
      (by decide) (by decide)).1
  · exact (busy_guard_single_flight.2.2.1 1000 "q" _ .threw (.RATE_LIMIT 59)
      (by decide) (by decide)).2
  · exact (busy_guard_single_flight.2.2.2.1 1000 "q" _ .threw (.COOLDOWN 4)
      (by decide) (by decide) (by decide)).2
  · exact (busy_guard_single_flight.2.2.2.2.1 1000 "q" _ (.ok "hi" false)
      (by decide) (by decide) (by decide) (by decide)).1
  · exact (busy_guard_single_flight.2.2.2.2.2 1000 "q" _ .threw
      (by decide) (by decide) (by decide) (by decide)).2

/-! ### Streaming protocol lemmas -/

theorem count_done_map_delta (f : List String) :
    ((f.map fun d => WireEvent.delta d false).count WireEvent.done) = 0 := by
  rw [List.count_eq_zero]
  simp

theorem emittedFrags_map_delta (f : List String) :
    emittedFrags (f.map fun d => WireEvent.delta d false) = f := by
  induction f with
  | nil => rfl
  | cons x xs ih => simpa [emittedFrags] using ih

theorem join_foldl_append (l : List String) (a : String) :
    l.foldl (fun acc s => acc ++ s) a = a ++ l.foldl (fun acc s => acc ++ s) "" := by
  induction l generalizing a with
  | nil => simp
  | cons x xs ih =>
    simp only [List.foldl_cons]
    rw [ih (a ++ x), ih ("" ++ x)]
    simp [String.append_assoc]

theorem join_cons (x : String) (l : List String) :
    String.join (x :: l) = x ++ String.join l := by
  simp only [String.join, List.foldl_cons]
  rw [join_foldl_append l ("" ++ x)]
  simp

theorem join_filter_ne_empty (f : List String) :
    String.join (f.filter fun d => d ≠ "") = String.join f := by
  induction f with
  | nil => rfl
  | cons x xs ih =>
    by_cases hx : x = ""
    · subst hx
      rw [List.filter_cons_of_neg (by simp), ih, join_cons]
      simp
    · rw [List.filter_cons_of_pos (by simp [hx]), join_cons, join_cons, ih]

theorem emittedFrags_append (a b : List WireEvent) :
    emittedFrags (a ++ b) = emittedFrags a ++ emittedFrags b := by
  simp [emittedFrags, List.filterMap_append]

/-! ### Claim C9: streaming delivery protocol -/

/-- Claim C9: for every admitted streaming request, the wire-event sequence
ends with exactly one terminal `[DONE]` event with no events after it —
including after a mid-stream failure, where the terminal event is preceded
by the `SERVER_ERROR` marker and the cache is not written; each non-empty
generation fragment is forwarded as one discrete delta event in order, and
the trimmed concatenation of the emitted fragments equals the answer stored
in the cache; a fresh cache hit emits the full cached answer as a single
fragment immediately followed by the terminal event. -/
theorem streaming_protocol_spec :
    (∀ (now : Int) (entry0 : Option CacheEntry) (gen : GenOutcome),
      (handleChatStreamCore now entry0 gen).1.getLast? = some .done ∧
      (handleChatStreamCore now entry0 gen).1.count .done = 1) ∧
    (∀ (now : Int) (entry0 : Option CacheEntry) (frags : List String),
      cleanupCacheEntry now entry0 = none →
      emittedFrags (handleChatStreamCore now entry0 (.success frags)).1 =
        frags.filter (fun d => d ≠ "") ∧
      (handleChatStreamCore now entry0 (.success frags)).2 =
        some { ts := now,
               reply := jsTrimStr (String.join
                 (emittedFrags (handleChatStreamCore now entry0 (.success frags)).1)) }) ∧
    (∀ (now : Int) (entry0 : Option CacheEntry) (frags : List String),
      cleanupCacheEntry now entry0 = none →
      (handleChatStreamCore now entry0 (.failure frags)).1.dropLast.getLast? =
        some .errorEvent ∧
      (handleChatStreamCore now entry0 (.failure frags)).2 = none) ∧
    (∀ (now : Int) (v : CacheEntry) (gen : GenOutcome), now - v.ts < CACHE_TTL →
      handleChatStreamCore now (some v) gen = ([.delta v.reply true, .done], some v)) := by
  have hit : ∀ (now : Int) (v : CacheEntry) (gen : GenOutcome), now - v.ts < CACHE_TTL →
      handleChatStreamCore now (some v) gen = ([.delta v.reply true, .done], some v) := by
    intro now v gen h
    have hkeep : cleanupCacheEntry now (some v) = some v := by
      simp only [cleanupCacheEntry]
      rw [if_neg (by omega)]
    simp only [handleChatStreamCore, hkeep]
    rw [if_pos h]
  refine ⟨?_, ?_, ?_, hit⟩
  · intro now entry0 gen
    rcases hclean : cleanupCacheEntry now entry0 with _ | v
    · simp only [handleChatStreamCore, hclean]
      cases gen <;>
        simp [streamGenEvents, List.getLast?_append, List.count_append,
          count_done_map_delta]
    · simp only [handleChatStreamCore, hclean]
      by_cases hfresh : now - v.ts < CACHE_TTL
      · rw [if_pos hfresh]
        exact ⟨rfl, rfl⟩
      · rw [if_neg hfresh]
        cases gen <;>
          simp [streamGenEvents, List.getLast?_append, List.count_append,
            count_done_map_delta]
  · intro now entry0 frags hclean
    simp only [handleChatStreamCore, hclean, streamGenEvents]
    constructor
    · rw [emittedFrags_append, emittedFrags_map_delta]
      simp [emittedFrags]
    · rw [emittedFrags_append, emittedFrags_map_delta,
        show emittedFrags [WireEvent.done] = [] from rfl, List.append_nil,
        join_filter_ne_empty]
  · intro now entry0 frags hclean
    simp only [handleChatStreamCore, hclean, streamGenEvents]
    refine ⟨?_, trivial⟩
    rw [show (frags.filter fun d => d ≠ "").map (fun d => WireEvent.delta d false) ++
          [WireEvent.errorEvent, WireEvent.done] =
          ((frags.filter fun d => d ≠ "").map (fun d => WireEvent.delta d false) ++
            [WireEvent.errorEvent]) ++ [WireEvent.done] by simp,
        List.dropLast_concat, List.getLast?_append]
    rfl

/-- Witness for `streaming_protocol_spec`, the specification scenario: a
generation yielding fragments `["Hel", "lo"]` on a cache miss produces
exactly the three wire events (two deltas and the terminal) and stores the
final answer `"Hello"`; a fresh cache hit streams the cached answer as one
fragment plus the terminal event. -/
theorem streaming_protocol_spec_witness :
    (handleChatStreamCore 0 none (.success ["Hel", "lo"])).1.getLast? = some .done ∧
    (handleChatStreamCore 0 none (.success ["Hel", "lo"])).1.count .done = 1 ∧
    emittedFrags (handleChatStreamCore 0 none (.success ["Hel", "lo"])).1 = ["Hel", "lo"] ∧
    (handleChatStreamCore 0 none (.success ["Hel", "lo"])).2 =
      some { ts := 0, reply := "Hello" } ∧
    (handleChatStreamCore 0 none (.success ["Hel", "lo"])).1.length = 3 ∧
    handleChatStreamCore 1000 (some { ts := 500, reply := "hi" }) (.failure []) =
      ([.delta "hi" true, .done], some { ts := 500, reply := "hi" }) := by
  have h1 := (streaming_protocol_spec.1 0 none (.success ["Hel", "lo"]))
  have h2 := streaming_protocol_spec.2.1 0 none ["Hel", "lo"] rfl
  refine ⟨h1.1, h1.2, ?_, ?_, by decide, ?_⟩
  · rw [h2.1]
    decide
  · rw [h2.2, h2.1]
    decide
  · exact streaming_protocol_spec.2.2.2 1000 ⟨500, "hi"⟩ (.failure []) (by decide)


/-! ### Cosine-similarity lemmas -/

theorem normSqList_nonneg (a : List ℝ) : 0 ≤ normSqList a := by
  apply List.sum_nonneg
  intro x hx
  obtain ⟨y, _, rfl⟩ := List.mem_map.mp hx
  exact mul_self_nonneg y

theorem dotList_sq_le (a : List ℝ) : ∀ (b : List ℝ),
    (dotList a b) ^ 2 ≤ normSqList a * normSqList b := by
  induction a with
  | nil =>
    intro b
    simp [dotList, normSqList]
  | cons x xs ih =>
    intro b
    cases b with
    | nil => simp [dotList, normSqList]
    | cons y ys =>
      have h := ih ys
      have hA : 0 ≤ normSqList xs := normSqList_nonneg xs
      have hB : 0 ≤ normSqList ys := normSqList_nonneg ys
      show (x * y + dotList xs ys) ^ 2 ≤
        (x * x + normSqList xs) * (y * y + normSqList ys)
      rcases eq_or_lt_of_le hB with hB0 | hBpos
      · rw [← hB0] at h ⊢
        have h2 : dotList xs ys ^ 2 ≤ 0 := by nlinarith [h, hA]
        have hS : dotList xs ys = 0 :=
          sq_eq_zero_iff.mp (le_antisymm h2 (sq_nonneg _))
        rw [hS]
        nlinarith [mul_nonneg hA (sq_nonneg y)]
      · nlinarith [h, hA, hB, sq_nonneg (x * normSqList ys - dotList xs ys * y),
          mul_nonneg (sub_nonneg.mpr h) (sq_nonneg y),
          mul_nonneg hB (sub_nonneg.mpr h), hBpos]


theorem cosineSimilarity_le_one (a b : List ℝ) :
    cosineSimilarity Real.sqrt a b ≤ 1 := by
  have hcs : dotList a b ≤ Real.sqrt (normSqList a) * Real.sqrt (normSqList b) := by
    have h1 : dotList a b ≤ |dotList a b| := le_abs_self _
    have h2 : |dotList a b| = Real.sqrt ((dotList a b) ^ 2) :=
      (Real.sqrt_sq_eq_abs _).symm
    have h3 : Real.sqrt ((dotList a b) ^ 2) ≤
        Real.sqrt (normSqList a * normSqList b) :=
      Real.sqrt_le_sqrt (dotList_sq_le a b)
    have h4 : Real.sqrt (normSqList a * normSqList b) =
        Real.sqrt (normSqList a) * Real.sqrt (normSqList b) :=
      Real.sqrt_mul (normSqList_nonneg a) _
    calc dotList a b ≤ |dotList a b| := h1
      _ = _ := h2
      _ ≤ _ := h3
      _ = _ := h4
  simp only [cosineSimilarity]
  by_cases hd : Real.sqrt (normSqList a) * Real.sqrt (normSqList b) = 0
  · rw [if_pos hd, div_one]
    calc dotList a b ≤ Real.sqrt (normSqList a) * Real.sqrt (normSqList b) := hcs
      _ = 0 := hd
      _ ≤ 1 := by norm_num
  · rw [if_neg hd]
    have hpos : 0 < Real.sqrt (normSqList a) * Real.sqrt (normSqList b) :=
      lt_of_le_of_ne (mul_nonneg (Real.sqrt_nonneg _) (Real.sqrt_nonneg _))
        (Ne.symm hd)
    exact (div_le_one hpos).mpr hcs

theorem cosineSimilarity_self (v : List ℝ) (hnz : ∃ x ∈ v, x ≠ 0) :
    cosineSimilarity Real.sqrt v v = 1 := by
  obtain ⟨x, hx, hxne⟩ := hnz
  have hdot : dotList v v = normSqList v := by
    simp [dotList, normSqList, List.zipWith_same]
  have hpos : 0 < normSqList v := by
    have hmem : x * x ∈ v.map fun y => y * y := List.mem_map_of_mem _ hx
    have hle : x * x ≤ normSqList v := by
      apply List.single_le_sum _ _ hmem
      intro z hz
      obtain ⟨w, _, rfl⟩ := List.mem_map.mp hz
      exact mul_self_nonneg w
    exact lt_of_lt_of_le (mul_self_pos.mpr hxne) hle
  have hd : Real.sqrt (normSqList v) * Real.sqrt (normSqList v) = normSqList v :=
    Real.mul_self_sqrt hpos.le
  simp only [cosineSimilarity, hd, hdot]
  rw [if_neg (ne_of_gt hpos)]
  exact div_self (ne_of_gt hpos)


theorem sortScored_perm {α : Type} [LinearOrder α] (l : List (Nat × α)) :
    (sortScored l).Perm l := List.mergeSort_perm l _

theorem sortScored_sorted {α : Type} [LinearOrder α] (l : List (Nat × α)) :
    (sortScored l).Pairwise fun x y => y.2 ≤ x.2 := by
  have h := @List.sorted_mergeSort (Nat × α)
    (fun x y => decide (y.2 ≤ x.2))
    (fun a b c h1 h2 => by
      simp only [decide_eq_true_eq] at h1 h2 ⊢
      exact h2.trans h1)
    (fun a b => by
      simp only [Bool.or_eq_true, decide_eq_true_eq]
      exact le_total b.2 a.2)
    l
  refine List.pairwise_iff_forall_sublist.mpr ?_
  intro a b hab
  have := List.pairwise_iff_forall_sublist.mp h hab
  simpa using this

/-! ### Dedup and selection lemmas -/

theorem dedupeByIdGo_sublist (seen : List String) (l : List Chunk) :
    (dedupeByIdGo seen l).Sublist l := by
  induction l generalizing seen with
  | nil => simp [dedupeByIdGo]
  | cons c rest ih =>
    simp only [dedupeByIdGo]
    by_cases hc : c.id ∈ seen
    · rw [if_pos hc]
      exact (ih seen).trans (List.sublist_cons_self c rest)
    · rw [if_neg hc]
      exact (ih (c.id :: seen)).cons₂ c

theorem dedupeByIdGo_nodup (seen : List String) (l : List Chunk) :
    ((dedupeByIdGo seen l).map fun c => c.id).Nodup ∧
    ∀ c ∈ dedupeByIdGo seen l, c.id ∉ seen := by
  induction l generalizing seen with
  | nil => simp [dedupeByIdGo]
  | cons c rest ih =>
    simp only [dedupeByIdGo]
    by_cases hc : c.id ∈ seen
    · rw [if_pos hc]
      exact ih seen
    · rw [if_neg hc]
      obtain ⟨hnd, hseen⟩ := ih (c.id :: seen)
      refine ⟨List.nodup_cons.mpr ⟨?_, hnd⟩, ?_⟩
      · intro hmem
        obtain ⟨d, hd, hid⟩ := List.mem_map.mp hmem
        exact hseen d hd (hid ▸ List.mem_cons_self _ _)
      · intro d hd
        rcases List.mem_cons.mp hd with h | h
        · subst h
          exact hc
        · intro habs
          exact hseen d h (List.mem_cons_of_mem _ habs)

theorem dedupeById_nodup (l : List Chunk) :
    ((dedupeById l).map fun c => c.id).Nodup :=
  (dedupeByIdGo_nodup [] l).1

theorem dedupeById_sublist (l : List Chunk) : (dedupeById l).Sublist l :=
  dedupeByIdGo_sublist [] l

theorem jsSlice_length_le (s : String) (n : Nat) : (jsSlice s n).length ≤ n := by
  simp only [jsSlice, String.length, String.mk]
  simp

/-! ### Claim C8: retrieval breadth, dedup, order, truncation -/

/-- Claim C8: the assembled context is the deduplicated block list rendered
in the order intro, footer, then similarity-ranked chunks, truncated as a
whole to `MAX_MENU_CHUNK` characters; the ranked selection is a descending
stable sort of the scored chunks cut to K, where K is
`RETRIEVAL_TOP_K_BROAD = 7` exactly for the "cheapest" and "comparison"
intents and `RETRIEVAL_TOP_K_DEFAULT = 4` otherwise; at most one intro and
at most one footer chunk are additionally included (when a chunk with that
key exists), and the deduplication by chunk id leaves no duplicate ids
while preserving the insertion order. -/
theorem retrieval_context_assembly_spec {α : Type} [LinearOrder α]
    (chunks : List Chunk) (scores : List α) (intentKey : String) :
    (buildMenuContext chunks scores intentKey).length ≤ MAX_MENU_CHUNK ∧
    buildMenuContext chunks scores intentKey =
      jsSlice (String.intercalate "\n\n"
        ((dedupeById (introOf chunks ++ footerOf chunks ++
          selectedOf chunks scores (topKOf intentKey))).map blockOf)) MAX_MENU_CHUNK ∧
    ((uniqueOf chunks scores intentKey).map fun c => c.id).Nodup ∧
    (uniqueOf chunks scores intentKey).Sublist
      (introOf chunks ++ footerOf chunks ++
        selectedOf chunks scores (topKOf intentKey)) ∧
    (introOf chunks).length ≤ 1 ∧ (footerOf chunks).length ≤ 1 ∧
    (∀ c ∈ introOf chunks, c.key = "intro") ∧
    (∀ c ∈ footerOf chunks, c.key = "footer") ∧
    ((∃ c ∈ chunks, c.key = "intro") → introOf chunks ≠ []) ∧
    ((∃ c ∈ chunks, c.key = "footer") → footerOf chunks ≠ []) ∧
    (selectedOf chunks scores (topKOf intentKey)).length ≤ topKOf intentKey ∧
    (sortScored (scoredOf scores)).Perm (scoredOf scores) ∧
    (sortScored (scoredOf scores)).Pairwise (fun x y => y.2 ≤ x.2) ∧
    ((intentKey = "cheapest" ∨ intentKey = "comparison") →
      topKOf intentKey = RETRIEVAL_TOP_K_BROAD) ∧
    (intentKey ≠ "cheapest" → intentKey ≠ "comparison" →
      topKOf intentKey = RETRIEVAL_TOP_K_DEFAULT) := by
  refine ⟨jsSlice_length_le _ _, rfl, dedupeById_nodup _, dedupeById_sublist _,
    ?_, ?_, ?_, ?_, ?_, ?_, ?_, ?_, ?_, ?_, ?_⟩
  · simp [introOf]
  · simp [footerOf]
  · intro c hc
    have := List.mem_of_mem_take hc
    simpa using (List.mem_filter.mp this).2
  · intro c hc
    have := List.mem_of_mem_take hc
    simpa using (List.mem_filter.mp this).2
  · intro hex
    obtain ⟨c, hc, hkey⟩ := hex
    simp only [introOf, ne_eq]
    intro habs
    have : c ∈ chunks.filter fun d => d.key = "intro" :=
      List.mem_filter.mpr ⟨hc, by simp [hkey]⟩
    rcases hfe : chunks.filter fun d => d.key = "intro" with _ | ⟨a, b⟩
    · rw [hfe] at this
      simp at this
    · rw [hfe] at habs
      simp at habs
  · intro hex
    obtain ⟨c, hc, hkey⟩ := hex
    simp only [footerOf, ne_eq]
    intro habs
    have : c ∈ chunks.filter fun d => d.key = "footer" :=
      List.mem_filter.mpr ⟨hc, by simp [hkey]⟩
    rcases hfe : chunks.filter fun d => d.key = "footer" with _ | ⟨a, b⟩
    · rw [hfe] at this
      simp at this
    · rw [hfe] at habs
      simp at habs
  · simp [selectedOf]
  · exact sortScored_perm _
  · exact sortScored_sorted _
  · intro h
    rcases h with h | h <;> simp [topKOf, h]
  · intro h1 h2
    simp [topKOf, h1, h2]

/-- Witness for `retrieval_context_assembly_spec` at a concrete corpus with
rational scores: the bound, dedup and breadth facts instantiated. -/
theorem retrieval_context_assembly_spec_witness :
    (buildMenuContext [⟨"intro:1", "intro", "ti"⟩, ⟨"a:1", "a", "t1"⟩]
      [(5 : ℚ), 1] "general").length ≤ MAX_MENU_CHUNK ∧
    ((uniqueOf [⟨"intro:1", "intro", "ti"⟩, ⟨"a:1", "a", "t1"⟩]
      [(5 : ℚ), 1] "general").map fun c => c.id).Nodup ∧
    topKOf "cheapest" = RETRIEVAL_TOP_K_BROAD ∧
    topKOf "general" = RETRIEVAL_TOP_K_DEFAULT := by
  have h := retrieval_context_assembly_spec
    [⟨"intro:1", "intro", "ti"⟩, ⟨"a:1", "a", "t1"⟩] [(5 : ℚ), 1] "general"
  have hch := retrieval_context_assembly_spec
    ([] : List Chunk) ([] : List ℚ) "cheapest"
  exact ⟨h.1, h.2.2.1,
    hch.2.2.2.2.2.2.2.2.2.2.2.2.2.1 (Or.inl rfl),
    h.2.2.2.2.2.2.2.2.2.2.2.2.2.2 (by decide) (by decide)⟩

/-! ### Claim C7 (corrected): cosine similarity of an identical vector -/

/-- Counterexample to claim C7 as stated: the zero vector is identical to a
zero query vector, yet its similarity is 0, not 1.0 — with both norms zero
the `|| 1` fallback makes the denominator 1 and the dot product is 0. -/
theorem cosine_zero_vector_counterexample :
    cosineSimilarity Real.sqrt [(0 : ℝ)] [(0 : ℝ)] = 0 ∧ (0 : ℝ) ≠ 1 := by
  constructor
  · simp [cosineSimilarity, dotList, normSqList]
  · norm_num

/-- Claim C7, amended: the similarity function computes
`dot(a,b) / (‖a‖ * ‖b‖ or 1 when that product is zero)`; for a corpus of
chunk vectors (all of the query's length) in which the chunk at index `j`
has a vector identical to the *nonzero* query vector, that chunk receives
similarity 1.0, every chunk's similarity is at most 1.0, and any descending
sort of the scores ranks similarity 1.0 first (the head of any
descending-sorted permutation of the scores — in particular of the code's
`sortScored` on the scored index list — carries score 1.0; a chunk tied at
1.0 may share the top). -/
theorem cosine_identical_top_rank_amended (q : List ℝ) (vecs : List (List ℝ))
    (j : Nat) (hj : j < vecs.length)
    (hq : vecs.get ⟨j, hj⟩ = q)
    (_hlen : ∀ w ∈ vecs, w.length = q.length)
    (hnz : ∃ x ∈ q, x ≠ 0) :
    (∀ a b : List ℝ, cosineSimilarity Real.sqrt a b =
      dotList a b /
        (if Real.sqrt (normSqList a) * Real.sqrt (normSqList b) = 0 then 1
         else Real.sqrt (normSqList a) * Real.sqrt (normSqList b))) ∧
    cosineSimilarity Real.sqrt q (vecs.get ⟨j, hj⟩) = 1 ∧
    (∀ s ∈ vecs.map fun w => cosineSimilarity Real.sqrt q w, s ≤ 1) ∧
    (∀ L : List ℝ, (vecs.map fun w => cosineSimilarity Real.sqrt q w).Perm L →
      L.Pairwise (fun x y => y ≤ x) → L.head? = some 1) ∧
    (∀ p : Nat × ℝ,
      (sortScored (scoredOf (vecs.map fun w => cosineSimilarity Real.sqrt q w))).head? =
        some p → p.2 = 1) := by
  set scores := vecs.map fun w => cosineSimilarity Real.sqrt q w with hscores
  have hle : ∀ s ∈ scores, s ≤ 1 := by
    intro s hs
    obtain ⟨w, _, rfl⟩ := List.mem_map.mp hs
    exact cosineSimilarity_le_one q w
  have hone : (1 : ℝ) ∈ scores := by
    rw [hscores]
    have := List.mem_map_of_mem (fun w => cosineSimilarity Real.sqrt q w)
      (List.get_mem vecs j hj)
    rw [hq] at this
    simpa [cosineSimilarity_self q hnz] using this
  refine ⟨fun a b => rfl, by rw [hq]; exact cosineSimilarity_self q hnz, hle, ?_, ?_⟩
  · intro L hperm hsorted
    cases L with
    | nil => exact absurd (hperm.mem_iff.mp hone) (List.not_mem_nil 1)
    | cons h t =>
      have hh1 : h ≤ 1 := hle h (hperm.symm.mem_iff.mp (List.mem_cons_self h t))
      have h1L : (1 : ℝ) ∈ h :: t := hperm.mem_iff.mp hone
      rcases List.mem_cons.mp h1L with heq | htail
      · rw [List.head?_cons, heq]
      · have hge : 1 ≤ h := List.rel_of_pairwise_cons hsorted htail
        rw [List.head?_cons, le_antisymm hh1 hge]
  · intro p hp
    have hsorted := sortScored_sorted (scoredOf scores)
    have hperm := sortScored_perm (scoredOf scores)
    rcases hL : sortScored (scoredOf scores) with _ | ⟨h, t⟩
    · rw [hL] at hp
      simp at hp
    · rw [hL] at hp
      simp only [List.head?_cons, Option.some_inj] at hp
      subst hp
      rw [hL] at hsorted hperm
      have hmemscores : ∀ x : Nat × ℝ, x ∈ scoredOf scores → x.2 ∈ scores := by
        intro x hx
        have := List.mem_enum_iff_getElem?.mp hx
        exact List.getElem?_mem this
      have hple : h.2 ≤ 1 :=
        hle _ (hmemscores h (hperm.mem_iff.mp (List.mem_cons_self h t)))
      obtain ⟨n, hn⟩ := List.mem_iff_getElem?.mp hone
      have henum : (n, (1 : ℝ)) ∈ scoredOf scores :=
        List.mem_enum_iff_getElem?.mpr hn
      have hin : (n, (1 : ℝ)) ∈ h :: t := hperm.mem_iff.mpr henum
      rcases List.mem_cons.mp hin with heq | htail
      · rw [← heq]
      · have := List.rel_of_pairwise_cons hsorted htail
        exact le_antisymm hple this

/-- Witness for `cosine_identical_top_rank_amended` at the corpus
`[[0], [1]]` with query `[1]`: the identical chunk's similarity is 1 and
every score is at most 1. -/
theorem cosine_identical_top_rank_amended_witness :
    cosineSimilarity Real.sqrt [(1 : ℝ)]
        (([[(0 : ℝ)], [1]] : List (List ℝ)).get ⟨1, by decide⟩) = 1 ∧
    (∀ s ∈ ([[(0 : ℝ)], [1]] : List (List ℝ)).map
        (fun w => cosineSimilarity Real.sqrt [(1 : ℝ)] w), s ≤ 1) := by
  have h := cosine_identical_top_rank_amended [(1 : ℝ)] [[(0 : ℝ)], [1]] 1
    (by decide) rfl (by decide) ⟨1, List.mem_singleton_self 1, one_ne_zero⟩
  exact ⟨h.2.1, h.2.2.1⟩

/-! ### Chunking lemmas: edge cleanliness, trim identity, greedy packing -/

def cleanEdges (l : List Char) : Bool :=
  (match l.head? with
   | some c => !isWsChar c
   | none => true) &&
  (match l.getLast? with
   | some c => !isWsChar c
   | none => true)

theorem cleanEdges_head {l : List Char} (h : cleanEdges l = true) :
    ∀ c, l.head? = some c → isWsChar c = false := by
  intro c hc
  unfold cleanEdges at h
  rw [hc] at h
  simp at h
  exact h.1

theorem cleanEdges_getLast {l : List Char} (h : cleanEdges l = true) :
    ∀ c, l.getLast? = some c → isWsChar c = false := by
  intro c hc
  unfold cleanEdges at h
  rw [hc] at h
  simp at h
  exact h.2

theorem dropWhile_eq_self_of_head {l : List Char}
    (h : ∀ c, l.head? = some c → isWsChar c = false) :
    l.dropWhile isWsChar = l := by
  cases l with
  | nil => rfl
  | cons x xs =>
    rw [List.dropWhile_cons, if_neg]
    rw [h x rfl]
    simp

theorem jsTrim_eq_self {l : List Char} (h : cleanEdges l = true) : jsTrim l = l := by
  unfold jsTrim
  rw [dropWhile_eq_self_of_head (cleanEdges_head h)]
  have hrev : ∀ c, l.reverse.head? = some c → isWsChar c = false := by
    intro c hc
    rw [List.head?_reverse] at hc
    exact cleanEdges_getLast h c hc
  rw [dropWhile_eq_self_of_head hrev, List.reverse_reverse]

theorem jsTrim_length_le (l : List Char) : (jsTrim l).length ≤ l.length := by
  unfold jsTrim
  calc ((l.dropWhile isWsChar).reverse.dropWhile isWsChar).reverse.length
      = ((l.dropWhile isWsChar).reverse.dropWhile isWsChar).length := by
        rw [List.length_reverse]
    _ ≤ (l.dropWhile isWsChar).reverse.length :=
        (List.dropWhile_sublist _).length_le
    _ = (l.dropWhile isWsChar).length := by rw [List.length_reverse]
    _ ≤ l.length := (List.dropWhile_sublist _).length_le

theorem cleanEdges_append {buf line : List Char} (hb : buf ≠ []) (hl : line ≠ [])
    (h1 : cleanEdges buf = true) (h2 : cleanEdges line = true) :
    cleanEdges (buf ++ '\n' :: line) = true := by
  unfold cleanEdges
  have hhead : (buf ++ '\n' :: line).head? = buf.head? := by
    rw [List.head?_append]
    cases buf with
    | nil => exact absurd rfl hb
    | cons x xs => rfl
  have hlast : (buf ++ '\n' :: line).getLast? = line.getLast? := by
    rw [List.getLast?_append]
    have : ('\n' :: line).getLast? = line.getLast? := by
      rw [show ('\n' :: line) = ['\n'] ++ line from rfl, List.getLast?_append]
      cases hx : line.getLast? with
      | none =>
        exact absurd (List.getLast?_eq_none_iff.mp hx) hl
      | some c => rfl
    rw [this]
    cases hx : line.getLast? with
    | none => exact absurd (List.getLast?_eq_none_iff.mp hx) hl
    | some c => rfl
  rw [hhead, hlast]
  cases hbh : buf.head? with
  | none =>
    cases buf with
    | nil => exact absurd rfl hb
    | cons x xs => simp at hbh
  | some c =>
    cases hlh : line.getLast? with
    | none => exact absurd (List.getLast?_eq_none_iff.mp hlh) hl
    | some d =>
      simp only [Bool.and_eq_true]
      constructor
      · rw [cleanEdges_head h1 c hbh]
        rfl
      · rw [cleanEdges_getLast h2 d hlh]
        rfl

theorem joinNL_cons_of_ne (x : List Char) {ls : List (List Char)} (h : ls ≠ []) :
    joinNL (x :: ls) = x ++ '\n' :: joinNL ls := by
  cases ls with
  | nil => exact absurd rfl h
  | cons y ys => rfl

theorem joinNL_clean : ∀ (lines : List (List Char)), lines ≠ [] →
    (∀ l ∈ lines, l ≠ [] ∧ cleanEdges l = true) →
    joinNL lines ≠ [] ∧ cleanEdges (joinNL lines) = true
  | [], h, _ => absurd rfl h
  | [l], _, hc => by
    have := hc l (List.mem_singleton_self l)
    simpa [joinNL] using this
  | l :: l2 :: rest, _, hc => by
    have ih := joinNL_clean (l2 :: rest) (by simp)
      (fun x hx => hc x (List.mem_cons_of_mem l hx))
    have hl := hc l (List.mem_cons_self l _)
    rw [joinNL_cons_of_ne l (by simp)]
    constructor
    · simp
    · exact cleanEdges_append hl.1 ih.1 hl.2 ih.2

theorem chunkGo_join : ∀ (lines : List (List Char)) (buf : List Char),
    buf ≠ [] → cleanEdges buf = true →
    (∀ l ∈ lines, l ≠ [] ∧ cleanEdges l = true) →
    chunkSectionGo buf lines ≠ [] ∧
    joinNL (chunkSectionGo buf lines) = joinNL (buf :: lines)
  | [], buf, hb, hcb, _ => by
    rw [show chunkSectionGo buf [] =
      (if jsTrim buf = [] then [] else [jsTrim buf]) from rfl]
    rw [jsTrim_eq_self hcb, if_neg hb]
    exact ⟨by simp, rfl⟩
  | line :: rest, buf, hb, hcb, hcl => by
    have hline := hcl line (List.mem_cons_self line rest)
    have hrest : ∀ l ∈ rest, l ≠ [] ∧ cleanEdges l = true :=
      fun x hx => hcl x (List.mem_cons_of_mem line hx)
    rw [show chunkSectionGo buf (line :: rest) =
      (let nxt := if buf = [] then line else buf ++ '\n' :: line
       if nxt.length > MAX_EMBED_CHUNK_CHARS ∧ buf ≠ [] then
         jsTrim buf :: chunkSectionGo line rest
       else chunkSectionGo nxt rest) from rfl]
    simp only [if_neg hb]
    by_cases hover : (buf ++ '\n' :: line).length > MAX_EMBED_CHUNK_CHARS ∧ buf ≠ []
    · rw [if_pos hover]
      obtain ⟨Gne, Gjoin⟩ := chunkGo_join rest line hline.1 hline.2 hrest
      rw [jsTrim_eq_self hcb]
      refine ⟨by simp, ?_⟩
      rw [joinNL_cons_of_ne buf Gne, Gjoin]
      rfl
    · rw [if_neg hover]
      have hnxt_ne : buf ++ '\n' :: line ≠ [] := by simp
      have hnxt_clean : cleanEdges (buf ++ '\n' :: line) = true :=
        cleanEdges_append hb hline.1 hcb hline.2
      obtain ⟨Gne, Gjoin⟩ := chunkGo_join rest (buf ++ '\n' :: line) hnxt_ne hnxt_clean hrest
      refine ⟨Gne, ?_⟩
      rw [Gjoin]
      cases rest with
      | nil => rfl
      | cons r rs =>
        rw [joinNL_cons_of_ne (buf ++ '\n' :: line) (by simp),
          joinNL_cons_of_ne buf (by simp),
          joinNL_cons_of_ne line (by simp)]
        simp

theorem chunkGo_cap : ∀ (lines : List (List Char)) (buf : List Char),
    (∀ l ∈ lines, l.length ≤ MAX_EMBED_CHUNK_CHARS) →
    buf.length ≤ MAX_EMBED_CHUNK_CHARS →
    ∀ c ∈ chunkSectionGo buf lines, c.length ≤ MAX_EMBED_CHUNK_CHARS
  | [], buf, _, hbuf => by
    rw [show chunkSectionGo buf [] =
      (if jsTrim buf = [] then [] else [jsTrim buf]) from rfl]
    split
    · simp
    · intro c hc
      rw [List.mem_singleton.mp hc]
      exact le_trans (jsTrim_length_le buf) hbuf
  | line :: rest, buf, hlines, hbuf => by
    have hline := hlines line (List.mem_cons_self line rest)
    have hrest : ∀ l ∈ rest, l.length ≤ MAX_EMBED_CHUNK_CHARS :=
      fun x hx => hlines x (List.mem_cons_of_mem line hx)
    rw [show chunkSectionGo buf (line :: rest) =
      (let nxt := if buf = [] then line else buf ++ '\n' :: line
       if nxt.length > MAX_EMBED_CHUNK_CHARS ∧ buf ≠ [] then
         jsTrim buf :: chunkSectionGo line rest
       else chunkSectionGo nxt rest) from rfl]
    by_cases hb : buf = []
    · simp only [if_pos hb]
      rw [if_neg (by simp [hb])]
      exact chunkGo_cap rest line hrest hline
    · simp only [if_neg hb]
      by_cases hover : (buf ++ '\n' :: line).length > MAX_EMBED_CHUNK_CHARS ∧ buf ≠ []
      · rw [if_pos hover]
        intro c hc
        rcases List.mem_cons.mp hc with hceq | hcm
        · rw [hceq]
          exact le_trans (jsTrim_length_le buf) hbuf
        · exact chunkGo_cap rest line hrest hline c hcm
      · rw [if_neg hover]
        have hle : (buf ++ '\n' :: line).length ≤ MAX_EMBED_CHUNK_CHARS := by
          rcases Nat.lt_or_ge MAX_EMBED_CHUNK_CHARS (buf ++ '\n' :: line).length with h | h
          · exact absurd ⟨h, hb⟩ hover
          · exact h
        exact chunkGo_cap rest (buf ++ '\n' :: line) hrest hle

theorem chunkGo_nil_cons (l : List Char) (ls : List (List Char)) :
    chunkSectionGo [] (l :: ls) = chunkSectionGo l ls := by
  rw [show chunkSectionGo [] (l :: ls) =
    (let nxt := if ([] : List Char) = [] then l else [] ++ '\n' :: l
     if nxt.length > MAX_EMBED_CHUNK_CHARS ∧ ([] : List Char) ≠ [] then
       jsTrim [] :: chunkSectionGo l ls
     else chunkSectionGo nxt ls) from rfl]
  simp

theorem chunkSection_texts (key : String) (text : List Char) :
    (chunkSection key text).map (fun c => c.text) =
      chunkSectionGo [] (splitLines text) := by
  unfold chunkSection
  rw [List.map_map]
  exact List.enum_map_snd _

/-- Claim C6, amended: for every section text that is the `\n`-join of its
own split lines (no `\r\n` separators), provided every line is at most
`MAX_EMBED_CHUNK_CHARS` characters long, no produced chunk's text exceeds
that cap; provided additionally every line is nonempty with no leading or
trailing whitespace, concatenating all chunks of the section in id order,
joined by the line separator, reconstructs the section's trimmed text
exactly (and the text equals its own trim). -/
theorem chunking_amended_spec (key : String) (text : List Char)
    (hjoin : joinNL (splitLines text) = text)
    (hcap : ∀ l ∈ splitLines text, l.length ≤ MAX_EMBED_CHUNK_CHARS) :
    (∀ c ∈ chunkSection key text, c.text.length ≤ MAX_EMBED_CHUNK_CHARS) ∧
    ((∀ l ∈ splitLines text, l ≠ [] ∧ cleanEdges l = true) →
      joinNL ((chunkSection key text).map fun c => c.text) = jsTrim text ∧
      jsTrim text = text) := by
  constructor
  · intro c hc
    have hmem : c.text ∈ (chunkSection key text).map (fun c => c.text) :=
      List.mem_map_of_mem _ hc
    rw [chunkSection_texts] at hmem
    exact chunkGo_cap (splitLines text) [] hcap (by simp) c.text hmem
  · intro hclean
    cases hsl : splitLines text with
    | nil =>
      rw [hsl] at hjoin
      have htext : text = [] := hjoin.symm
      subst htext
      rw [chunkSection_texts, hsl]
      constructor <;> rfl
    | cons l ls =>
      rw [hsl] at hclean
      have hl := hclean l (List.mem_cons_self l ls)
      have htrim : jsTrim text = text := by
        obtain ⟨_, hce⟩ := joinNL_clean (l :: ls) (by simp) hclean
        rw [← hjoin, hsl]
        exact jsTrim_eq_self hce
      refine ⟨?_, htrim⟩
      rw [chunkSection_texts, hsl, chunkGo_nil_cons]
      obtain ⟨_, hj⟩ := chunkGo_join ls l hl.1 hl.2
        (fun x hx => hclean x (List.mem_cons_of_mem l hx))
      rw [hj, htrim, ← hjoin, hsl]

set_option maxRecDepth 10000 in
/-- Counterexample to claim C6 as stated: for the section text consisting
of a single 1401-character line, a `\r\n` separator and the line "b", the
first produced chunk has 1401 > 1400 characters, and the chunks joined by
`\n` differ from the trimmed text (the `\r` of the `\r\n` separator is
lost by the split).  So neither the cap bound nor exact reconstruction
holds for arbitrary section texts. -/
theorem chunking_claim_counterexample :
    ¬ ((∀ c ∈ chunkSection "s" (List.replicate 1401 'a' ++ ['\r', '\n', 'b']),
          c.text.length ≤ MAX_EMBED_CHUNK_CHARS) ∧
       joinNL ((chunkSection "s" (List.replicate 1401 'a' ++ ['\r', '\n', 'b'])).map
           fun c => c.text) =
         jsTrim (List.replicate 1401 'a' ++ ['\r', '\n', 'b'])) := by
  decide

/-- Witness for `chunking_amended_spec` on the two-line section text
"ab\ncd": chunks respect the cap and reconstruct the text. -/
theorem chunking_amended_spec_witness :
    (∀ c ∈ chunkSection "s" "ab\ncd".data, c.text.length ≤ MAX_EMBED_CHUNK_CHARS) ∧
    joinNL ((chunkSection "s" "ab\ncd".data).map fun c => c.text) =
      jsTrim "ab\ncd".data ∧
    jsTrim "ab\ncd".data = "ab\ncd".data := by
  have h := chunking_amended_spec "s" "ab\ncd".data (by decide) (by decide)
  have h2 := h.2 (by decide)
  exact ⟨h.1, h2.1, h2.2⟩
